import Mathlib

/-!
Verification of the neovate-code execution core against its specification.

The corpus contains the CLI entry point (src/cli.ts), the server command,
the add-dir command UI, and the repository's design documents.  The
executable sources of the command risk classifier (src/tools/bash.ts), the
edit resolver (src/utils/applyEdit.ts), the approval state machine and the
tool execution gate are not in the corpus; those components are modelled
from the specification's words (and, where the design documents quote the
exact code, from that quoted code), as noted on each definition.
-/

namespace Neovate

/-- Parser state of the quote-aware substitution detector: the walk tracks
whether the scan is inside a single-quoted span, inside a double-quoted
span, and whether a one-shot backslash escape is armed for the next
character (spec section 4.1; design doc 2025-12-24). -/
structure QState where
  inSingleQuote : Bool
  inDoubleQuote : Bool
  escaped : Bool
deriving DecidableEq

/-- The scan's starting state: outside any quote, no escape armed. -/
def qStart : QState := ⟨false, false, false⟩

/-- Modelled from the spec: the per-character state transition of the
substitution detector of src/tools/bash.ts (file absent from the corpus).
An escaped character is consumed literally; a backslash outside single
quotes arms the one-shot escape; a single quote toggles its span only
outside double quotes; a double quote toggles its span only outside single
quotes; every other character leaves the state unchanged. -/
def qstep (st : QState) (c : Char) : QState :=
  if st.escaped then { st with escaped := false }
  else if c = '\\' ∧ st.inSingleQuote = false then { st with escaped := true }
  else if c = '\x27' ∧ st.inDoubleQuote = false then
    { st with inSingleQuote := !st.inSingleQuote }
  else if c = '"' ∧ st.inSingleQuote = false then
    { st with inDoubleQuote := !st.inDoubleQuote }
  else st

/-- Runs the quote state machine over a list of characters. -/
def qscan (st : QState) (cs : List Char) : QState :=
  cs.foldl qstep st

/-- Modelled from the spec: whether the detector flags the current
character: not escaped, not inside single quotes, and the character is a
backtick or a dollar immediately followed by an opening parenthesis. -/
def detectsAt (st : QState) (c : Char) (rest : List Char) : Bool :=
  !st.escaped && !st.inSingleQuote &&
    (c == '\x60' || (c == '$' && rest[0]? == some '('))

/-- Modelled from the spec: the recursive scan that reports whether any
position of the command flags command substitution. -/
def hasSub : QState → List Char → Bool
  | _, [] => false
  | st, c :: cs => detectsAt st c cs || hasSub (qstep st c) cs

/-- Modelled from the spec: hasCommandSubstitution of src/tools/bash.ts
(design doc 2025-12-24): quote-aware detection of an unquoted or
double-quoted, unescaped backtick or dollar-paren. -/
def hasCommandSubstitution (cmd : String) : Bool :=
  hasSub qStart cmd.data

/-- Risk categories of the classifier (spec section 3). -/
inductive RiskCategory
  | safe
  | requiresApproval
  | forbidden
deriving DecidableEq

/-- Modelled from the spec: classify of the command risk classifier
(spec section 4.1; src/tools/bash.ts absent from the corpus).  A command
whose scan ends inside a quote is fail-closed requiresApproval; detected
command substitution is forbidden; a denylist hit (the denylist is an
abstract predicate parameter) requires approval; everything else is safe. -/
def classify (deny : String → Bool) (cmd : String) : RiskCategory :=
  if (qscan qStart cmd.data).inSingleQuote || (qscan qStart cmd.data).inDoubleQuote then
    RiskCategory.requiresApproval
  else if hasCommandSubstitution cmd then RiskCategory.forbidden
  else if deny cmd then RiskCategory.requiresApproval
  else RiskCategory.safe

theorem qscan_nil (st : QState) : qscan st [] = st := rfl

theorem qscan_cons (st : QState) (c : Char) (cs : List Char) :
    qscan st (c :: cs) = qscan (qstep st c) cs := rfl

theorem qstep_not_both (st : QState) (c : Char)
    (h : (st.inSingleQuote && st.inDoubleQuote) = false) :
    ((qstep st c).inSingleQuote && (qstep st c).inDoubleQuote) = false := by
  unfold qstep
  split_ifs <;> simp_all

theorem qscan_not_both (cs : List Char) (st : QState)
    (h : (st.inSingleQuote && st.inDoubleQuote) = false) :
    ((qscan st cs).inSingleQuote && (qscan st cs).inDoubleQuote) = false := by
  induction cs generalizing st with
  | nil => exact h
  | cons c cs ih => exact ih (qstep st c) (qstep_not_both st c h)

theorem hasSub_of_detectsAt (cs : List Char) (st : QState) (i : Nat)
    (hi : i < cs.length)
    (h : detectsAt (qscan st (cs.take i)) (cs.get ⟨i, hi⟩) (cs.drop (i + 1)) = true) :
    hasSub st cs = true := by
  induction cs generalizing st i with
  | nil => simp at hi
  | cons c tl ih =>
    cases i with
    | zero =>
      rw [show hasSub st (c :: tl) = (detectsAt st c tl || hasSub (qstep st c) tl)
        from rfl]
      have h' : detectsAt st c tl = true := by
        simpa [List.take_zero, qscan_nil, List.get] using h
      simp [h']
    | succ j =>
      have hj : j < tl.length := Nat.lt_of_succ_lt_succ hi
      rw [show hasSub st (c :: tl) = (detectsAt st c tl || hasSub (qstep st c) tl)
        from rfl]
      have htail : hasSub (qstep st c) tl = true := by
        refine ih (qstep st c) j hj ?_
        simpa [List.take_succ_cons, qscan_cons, List.get] using h
      simp [htail]

theorem hasSub_eq_false_of_quoted (cs : List Char) (st : QState)
    (h : ∀ i (hi : i < cs.length),
      (cs.get ⟨i, hi⟩ = '\x60' → (qscan st (cs.take i)).inSingleQuote = true) ∧
      (cs.get ⟨i, hi⟩ = '$' → cs[i + 1]? = some '(' →
        (qscan st (cs.take i)).inSingleQuote = true)) :
    hasSub st cs = false := by
  induction cs generalizing st with
  | nil => rfl
  | cons c tl ih =>
    have h0 := h 0 (Nat.succ_pos _)
    have hd : detectsAt st c tl = false := by
      rcases h0 with ⟨hbt, hds⟩
      by_cases hc : c = '\x60'
      · have hq : st.inSingleQuote = true := by
          have := hbt (by simpa using hc)
          simpa using this
        simp [detectsAt, hq]
      · by_cases hc2 : c = '$'
        · by_cases hp : tl[0]? = some '('
          · have hq : st.inSingleQuote = true := by
              have := hds (by simpa using hc2) (by simpa using hp)
              simpa using this
            simp [detectsAt, hq]
          · simp [detectsAt, hc, hc2, hp]
        · simp [detectsAt, hc, hc2]
    rw [show hasSub st (c :: tl) = (detectsAt st c tl || hasSub (qstep st c) tl)
      from rfl, hd]
    simp only [Bool.false_or]
    refine ih (qstep st c) (fun i hi => ?_)
    have := h (i + 1) (Nat.succ_lt_succ hi)
    simpa [List.take_succ_cons, qscan_cons, List.get] using this

/-- C3: for every command string on which the quote-aware parser ends in a
non-normal state (an unterminated single or double quote), classify returns
category requiresApproval and never safe, for any denylist. -/
theorem unterminated_quotes_require_approval (deny : String → Bool) (cmd : String)
    (h : ((qscan qStart cmd.data).inSingleQuote ||
      (qscan qStart cmd.data).inDoubleQuote) = true) :
    classify deny cmd = RiskCategory.requiresApproval ∧
      classify deny cmd ≠ RiskCategory.safe := by
  constructor <;> simp [classify, h]

/-- Witness for C3 at the concrete command with an unterminated single
quote. -/
theorem unterminated_quotes_require_approval_witness :
    classify (fun _ => false) "echo \x27oops" = RiskCategory.requiresApproval ∧
      classify (fun _ => false) "echo \x27oops" ≠ RiskCategory.safe :=
  unterminated_quotes_require_approval (fun _ => false) "echo \x27oops" (by decide)

/-- C4: when every backtick and every dollar-paren of a command sits at a
position where the scan is inside a single-quoted span, the substitution
detector reports false and classification never reports substitution
(never forbidden). -/
theorem single_quoted_substitution_not_flagged (cmd : String)
    (h : ∀ i (hi : i < cmd.data.length),
      (cmd.data.get ⟨i, hi⟩ = '\x60' →
        (qscan qStart (cmd.data.take i)).inSingleQuote = true) ∧
      (cmd.data.get ⟨i, hi⟩ = '$' → cmd.data[i + 1]? = some '(' →
        (qscan qStart (cmd.data.take i)).inSingleQuote = true)) :
    hasCommandSubstitution cmd = false ∧
      ∀ deny : String → Bool, classify deny cmd ≠ RiskCategory.forbidden := by
  have hf : hasCommandSubstitution cmd = false :=
    hasSub_eq_false_of_quoted cmd.data qStart h
  refine ⟨hf, fun deny => ?_⟩
  unfold classify
  split_ifs <;> simp_all

/-- Witness for C4 at the concrete command whose dollar-paren is wholly
single-quoted. -/
theorem single_quoted_substitution_not_flagged_witness :
    hasCommandSubstitution "echo \x27$(whoami)\x27" = false ∧
      ∀ deny : String → Bool,
        classify deny "echo \x27$(whoami)\x27" ≠ RiskCategory.forbidden :=
  single_quoted_substitution_not_flagged "echo \x27$(whoami)\x27" (by decide)

/-- C5 counterexample: the claim says an escaped backtick inside a
double-quoted span makes the detector report false, but a command that
also carries an unquoted dollar-paren still reports true.  In the concrete
command, position 7 holds a backtick whose scan state is inside double
quotes with the escape armed, yet the detector reports true. -/
theorem escaped_backtick_claim_cex :
    "$(a) \"\\\x60\"".data[7]? = some '\x60' ∧
    (qscan qStart ("$(a) \"\\\x60\"".data.take 7)).inDoubleQuote = true ∧
    (qscan qStart ("$(a) \"\\\x60\"".data.take 7)).escaped = true ∧
    hasCommandSubstitution "$(a) \"\\\x60\"" = true := by
  refine ⟨by decide, by decide, by decide, by decide⟩

/-- C5 amended: an unescaped backtick inside a double-quoted span always
makes the detector report true; an escaped backtick is never itself
flagged (the detection step ignores any character while the escape is
armed), so on a command whose only marker is that backtick the detector
reports false when it is escaped and true when it is not — but an escaped
backtick does not force an overall false report when other unquoted
markers are present. -/
theorem escaped_backtick_amended (cmd : String) (i : Nat)
    (hi : i < cmd.data.length)
    (hbt : cmd.data.get ⟨i, hi⟩ = '\x60')
    (hdq : (qscan qStart (cmd.data.take i)).inDoubleQuote = true)
    (hesc : (qscan qStart (cmd.data.take i)).escaped = false) :
    hasCommandSubstitution cmd = true ∧
    (∀ (st : QState) (c : Char) (rest : List Char),
      st.escaped = true → detectsAt st c rest = false) ∧
    hasCommandSubstitution "echo \"\\\x60test\\\x60\"" = false ∧
    hasCommandSubstitution "echo \"\x60test\x60\"" = true := by
  refine ⟨?_, ?_, by decide, by decide⟩
  · have hnb := qscan_not_both (cmd.data.take i) qStart rfl
    have hs : (qscan qStart (cmd.data.take i)).inSingleQuote = false := by
      rcases Bool.and_eq_false_iff.mp hnb with h | h
      · exact h
      · rw [h] at hdq
        exact absurd hdq (by simp)
    have hbt' : cmd.data[i] = '\x60' := by
      simpa [List.get_eq_getElem] using hbt
    exact hasSub_of_detectsAt cmd.data qStart i hi
      (by simp [detectsAt, hbt', hs, hesc])
  · intro st c rest h
    simp [detectsAt, h]

/-- Witness for C5 at the concrete command with an unescaped backtick
inside double quotes at position 6. -/
theorem escaped_backtick_amended_witness :
    hasCommandSubstitution "echo \"\x60\"" = true :=
  (escaped_backtick_amended "echo \"\x60\"" 6 (by decide) (by decide)
    (by decide) (by decide)).1

/-- C6 counterexample: the spec's first concrete scenario asserts that the
command echo "```js```" — unescaped backticks inside double quotes —
reports no substitution, but the detector reports true on it (an unescaped
backtick inside double quotes flags). -/
theorem concrete_scenarios_cex :
    hasCommandSubstitution "echo \"\x60\x60\x60js\x60\x60\x60\"" = true := by
  decide

/-- C6 amended: the markdown-fence scenario holds with escaped backticks
(the design doc's test case), and the other three scenarios hold as
stated: echo $(whoami) reports true, echo 'foo' $(cmd) reports true, and
echo '$(whoami)' reports false. -/
theorem concrete_scenarios_amended :
    hasCommandSubstitution "echo \"\\\x60\\\x60\\\x60js\\\x60\\\x60\\\x60\"" = false ∧
    hasCommandSubstitution "echo $(whoami)" = true ∧
    hasCommandSubstitution "echo \x27foo\x27 $(cmd)" = true ∧
    hasCommandSubstitution "echo \x27$(whoami)\x27" = false := by
  refine ⟨by decide, by decide, by decide, by decide⟩

/-- Per-call lifecycle states of the approval state machine
(spec section 4.4). -/
inductive CallState
  | created
  | pendingApproval
  | approved
  | denied
  | cancelled
deriving DecidableEq

/-- Verdict carried by an approval decision event (spec section 3). -/
inductive ApprovalVerdict
  | approve
  | deny
deriving DecidableEq

/-- Modelled from the spec: consumption of one decision event by the
approval state machine (its source is absent from the corpus).  Only a
pending approval consumes the decision; any decision arriving in any other
state is ignored (logged, never an error). -/
def applyDecision : CallState → ApprovalVerdict → CallState
  | CallState.pendingApproval, ApprovalVerdict.approve => CallState.approved
  | CallState.pendingApproval, ApprovalVerdict.deny => CallState.denied
  | s, _ => s

/-- Feeds a sequence of decision events for one call identifier through the
state machine. -/
def applyDecisions (s : CallState) (ds : List ApprovalVerdict) : CallState :=
  ds.foldl applyDecision s

/-- Whether a state is a resolved decision outcome. -/
def isTerminalOutcome : CallState → Bool
  | CallState.approved => true
  | CallState.denied => true
  | CallState.cancelled => true
  | _ => false

theorem applyDecision_of_terminal (s : CallState) (v : ApprovalVerdict)
    (h : isTerminalOutcome s = true) : applyDecision s v = s := by
  cases s <;> cases v <;> simp_all [isTerminalOutcome, applyDecision]

theorem applyDecisions_of_terminal (ds : List ApprovalVerdict) (s : CallState)
    (h : isTerminalOutcome s = true) : applyDecisions s ds = s := by
  induction ds generalizing s with
  | nil => rfl
  | cons d ds ih =>
    rw [show applyDecisions s (d :: ds) = applyDecisions (applyDecision s d) ds
      from rfl, applyDecision_of_terminal s d h]
    exact ih s h

/-- C2: from PendingApproval, only the first of a sequence of two or more
decision events changes the state, and it moves it to Approved or Denied;
every later decision is a no-op on the terminal state, so no call reaches
two different terminal outcomes. -/
theorem approval_decision_idempotent (d : ApprovalVerdict)
    (rest : List ApprovalVerdict) :
    applyDecisions CallState.pendingApproval (d :: rest) =
      applyDecision CallState.pendingApproval d ∧
    (applyDecision CallState.pendingApproval d = CallState.approved ∨
      applyDecision CallState.pendingApproval d = CallState.denied) ∧
    ∀ (s : CallState) (v : ApprovalVerdict),
      isTerminalOutcome s = true → applyDecision s v = s := by
  refine ⟨?_, ?_, applyDecision_of_terminal⟩
  · rw [show applyDecisions CallState.pendingApproval (d :: rest) =
      applyDecisions (applyDecision CallState.pendingApproval d) rest from rfl]
    refine applyDecisions_of_terminal rest _ ?_
    cases d <;> rfl
  · cases d
    · exact Or.inl rfl
    · exact Or.inr rfl

/-- Witness for C2: an approval followed by two denials resolves to
Approved, and a decision on an already-denied call is a no-op. -/
theorem approval_decision_idempotent_witness :
    applyDecisions CallState.pendingApproval
      [ApprovalVerdict.approve, ApprovalVerdict.deny, ApprovalVerdict.deny] =
      CallState.approved ∧
    applyDecision CallState.denied ApprovalVerdict.approve = CallState.denied := by
  have h := approval_decision_idempotent ApprovalVerdict.approve
    [ApprovalVerdict.deny, ApprovalVerdict.deny]
  exact ⟨h.1.trans rfl, h.2.2 CallState.denied ApprovalVerdict.approve rfl⟩

/-- Events observable by the CLI signal handler of src/cli.ts: a delivered
SIGINT/SIGTERM, or the settling of the awaited shutdown() promise
(ok = true when it resolves, false when it throws). -/
inductive CliEvent
  | signal
  | shutdownSettled (ok : Bool)
deriving DecidableEq

/-- State of the cli.ts entry point around handleSignal: the
isShuttingDown flag, how many times shutdown() has been invoked, whether a
shutdown() call is currently being awaited, and the exit code passed to
process.exit (none while the process is still running). -/
structure CliState where
  isShuttingDown : Bool
  shutdownCalls : Nat
  awaitingShutdown : Bool
  exitCode : Option Nat
deriving DecidableEq

/-- Initial state of the CLI process: not shutting down, shutdown() never
invoked, nothing awaited, not exited. -/
def cliStart : CliState := ⟨false, 0, false, none⟩

/-- One event step of the handleSignal logic in src/cli.ts.  A signal
returns immediately when isShuttingDown is already set; otherwise it sets
the flag before any awaiting, invokes shutdown() and starts awaiting it.
When the awaited shutdown settles, the handler calls process.exit(0) on
resolution and process.exit(1) on a throw. -/
def cliStep (st : CliState) : CliEvent → CliState
  | CliEvent.signal =>
    if st.isShuttingDown then st
    else { st with isShuttingDown := true,
                   shutdownCalls := st.shutdownCalls + 1,
                   awaitingShutdown := true }
  | CliEvent.shutdownSettled ok =>
    if st.awaitingShutdown then
      { st with awaitingShutdown := false,
                exitCode := some (if ok then 0 else 1) }
    else st

/-- Runs the CLI event loop over a sequence of events from the initial
state. -/
def cliRun (evs : List CliEvent) : CliState :=
  evs.foldl cliStep cliStart

theorem cliStep_calls (st : CliState) (e : CliEvent)
    (h : st.shutdownCalls = if st.isShuttingDown then 1 else 0) :
    (cliStep st e).shutdownCalls =
      if (cliStep st e).isShuttingDown then 1 else 0 := by
  cases e with
  | signal =>
    unfold cliStep
    split_ifs with hs <;> simp_all
  | shutdownSettled ok =>
    unfold cliStep
    split_ifs <;> simp_all

theorem cliFold_calls (evs : List CliEvent) (st : CliState)
    (h : st.shutdownCalls = if st.isShuttingDown then 1 else 0) :
    (evs.foldl cliStep st).shutdownCalls =
      if (evs.foldl cliStep st).isShuttingDown then 1 else 0 := by
  induction evs generalizing st with
  | nil => exact h
  | cons e evs ih => exact ih (cliStep st e) (cliStep_calls st e h)

theorem cliFold_absorbed (m : Nat) :
    List.foldl cliStep ⟨true, 1, true, none⟩
      (List.replicate m CliEvent.signal) = ⟨true, 1, true, none⟩ := by
  induction m with
  | zero => rfl
  | succ n ih =>
    rw [List.replicate_succ, List.foldl_cons]
    exact ih

/-- C10: over every event sequence shutdown() runs at most once; a signal
arriving while isShuttingDown is set leaves the state untouched; and for
any number of extra signals the process exits with code 0 when shutdown
resolves and 1 when it throws, having invoked shutdown exactly once. -/
theorem handle_signal_once (evs : List CliEvent) (n : Nat) (ok : Bool) :
    (cliRun evs).shutdownCalls ≤ 1 ∧
    (∀ st : CliState, st.isShuttingDown = true →
      cliStep st CliEvent.signal = st) ∧
    cliRun (List.replicate (n + 1) CliEvent.signal ++
        [CliEvent.shutdownSettled ok]) =
      ⟨true, 1, false, some (if ok then 0 else 1)⟩ := by
  refine ⟨?_, ?_, ?_⟩
  · have h := cliFold_calls evs cliStart rfl
    rw [show cliRun evs = evs.foldl cliStep cliStart from rfl, h]
    split <;> simp
  · intro st h
    unfold cliStep
    rw [if_pos h]
  · have h1 : List.foldl cliStep cliStart
        (List.replicate (n + 1) CliEvent.signal) = ⟨true, 1, true, none⟩ := by
      rw [List.replicate_succ, List.foldl_cons]
      exact cliFold_absorbed n
    rw [show cliRun (List.replicate (n + 1) CliEvent.signal ++
        [CliEvent.shutdownSettled ok]) =
      List.foldl cliStep
        (List.foldl cliStep cliStart (List.replicate (n + 1) CliEvent.signal))
        [CliEvent.shutdownSettled ok] from List.foldl_append .., h1]
    rfl

/-- Witness for C10: two signals then a resolving shutdown invoke shutdown
once and exit with code 0, and a signal on an already-shutting-down state
is ignored. -/
theorem handle_signal_once_witness :
    (cliRun [CliEvent.signal, CliEvent.signal]).shutdownCalls ≤ 1 ∧
    cliStep ⟨true, 1, true, none⟩ CliEvent.signal = ⟨true, 1, true, none⟩ ∧
    cliRun (List.replicate 2 CliEvent.signal ++
        [CliEvent.shutdownSettled true]) = ⟨true, 1, false, some 0⟩ := by
  have h := handle_signal_once [CliEvent.signal, CliEvent.signal] 1 true
  exact ⟨h.1, h.2.1 ⟨true, 1, true, none⟩ rfl, h.2.2⟩

/-- Terminal status of a tool call's result (spec section 3). -/
inductive ToolStatus
  | success
  | error
  | denied
  | cancelled
deriving DecidableEq

/-- Error taxonomy of spec section 7, as far as the gate's results carry
it: validation failures, execution failures, and the edit resolver's
no-match and ambiguous-match errors. -/
inductive ErrorKind
  | validation
  | execution
  | noMatch
  | ambiguous
deriving DecidableEq

/-- Structured result returned to the transcript for one tool call
(spec section 3; the call identifier is kept outside this record by the
gate's bookkeeping). -/
structure ToolResult where
  status : ToolStatus
  isError : Bool
  content : String
  errKind : Option ErrorKind
deriving DecidableEq

/-- Turn-level activity status held by the UI store
(design doc 2026-01-09). -/
inductive ActivityStatus
  | idle
  | processing
  | failed
deriving DecidableEq

/-- Turn-level slice of the UI store state touched by the sendMessage
error branch (design doc 2026-01-09, src/ui/store.ts excerpt). -/
structure AppState where
  status : ActivityStatus
  error : Option String
  processingStartTime : Option Nat
  processingTokens : Nat
  retryInfo : Option String
  forkParentUuid : Option String
deriving DecidableEq

/-- Kind of the error value a failed loop run returns to the store. -/
inductive LoopErrorType
  | toolDenied
  | other
deriving DecidableEq

/-- Error value returned by the loop when a turn does not complete. -/
structure LoopError where
  errType : LoopErrorType
  message : String

/-- The fixed human-readable denial message the loop places in the denied
call's tool result (design doc 2026-01-09). -/
def toolDeniedMessage : String := "Error: Tool execution was denied by user."

/-- Modelled from the spec: the ToolResult the gate returns for a denied
call (the gate's source is absent from the corpus): status denied, isError
true, the fixed denial message, and no error-taxonomy tag — denial is a
soft outcome, not a failure. -/
def deniedToolResult : ToolResult :=
  ⟨ToolStatus.denied, true, toolDeniedMessage, none⟩

/-- The error branch of the sendMessage action in src/ui/store.ts, as
quoted by the 2026-01-09 design doc: a tool_denied loop error resets the
turn to idle without storing an error message, while any other loop error
marks the turn failed and stores the message. -/
def sendMessageOnError (st : AppState) (e : LoopError) : AppState :=
  if e.errType = LoopErrorType.toolDenied then
    { st with status := ActivityStatus.idle, processingStartTime := none,
              processingTokens := 0, retryInfo := none, forkParentUuid := none }
  else
    { st with status := ActivityStatus.failed, error := some e.message,
              processingStartTime := none, processingTokens := 0,
              retryInfo := none, forkParentUuid := none }

/-- C8: a denied call's ToolResult has status denied, isError true and the
fixed denial message, and the denial never sets the turn-level failure
flag: the store ends the turn idle, not failed, and stores no error
message beyond what was already there. -/
theorem denied_result_soft_outcome (st : AppState) (e : LoopError)
    (h : e.errType = LoopErrorType.toolDenied) :
    deniedToolResult.status = ToolStatus.denied ∧
    deniedToolResult.isError = true ∧
    deniedToolResult.content = toolDeniedMessage ∧
    (sendMessageOnError st e).status = ActivityStatus.idle ∧
    (sendMessageOnError st e).status ≠ ActivityStatus.failed ∧
    (sendMessageOnError st e).error = st.error := by
  refine ⟨rfl, rfl, rfl, ?_, ?_, ?_⟩ <;> simp [sendMessageOnError, h]

/-- Witness for C8 at a concrete store state and a concrete tool_denied
loop error. -/
theorem denied_result_soft_outcome_witness :
    (sendMessageOnError ⟨ActivityStatus.processing, none, some 5, 42, none, none⟩
      ⟨LoopErrorType.toolDenied, toolDeniedMessage⟩).status = ActivityStatus.idle ∧
    (sendMessageOnError ⟨ActivityStatus.processing, none, some 5, 42, none, none⟩
      ⟨LoopErrorType.toolDenied, toolDeniedMessage⟩).error = none := by
  have h := denied_result_soft_outcome
    ⟨ActivityStatus.processing, none, some 5, 42, none, none⟩
    ⟨LoopErrorType.toolDenied, toolDeniedMessage⟩ rfl
  exact ⟨h.2.2.2.1, h.2.2.2.2.2⟩

/-- One proposed edit: the text to find, its replacement, and whether all
occurrences are to be replaced (spec section 3). -/
structure EditOperation where
  old_string : String
  new_string : String
  replace_all : Bool
deriving DecidableEq

/-- Half-open character span [start, stop) in the original content. -/
structure Span where
  start : Nat
  stop : Nat
deriving DecidableEq

/-- One candidate match located by a strategy: the span it occupies in the
original content and the replacement text to splice there (the
indentation-flexible strategy re-indents the replacement, the others use
new_string as given). -/
structure Candidate where
  span : Span
  replacement : List Char
deriving DecidableEq

/-- Failure modes of the edit resolver (spec sections 4.2 and 7). -/
inductive EditError
  | noMatch
  | ambiguousMatch
deriving DecidableEq

/-- Whether old occurs in content starting exactly at index i. -/
def substrAt (content old : List Char) (i : Nat) : Bool :=
  (content.drop i).take old.length == old

/-- Modelled from the spec: cascade strategy 1, exact substring match —
every index where old_string occurs verbatim. -/
def exactCands (content old new : List Char) : List Candidate :=
  if old.isEmpty then []
  else (List.range content.length).filterMap fun i =>
    if substrAt content old i then some ⟨⟨i, i + old.length⟩, new⟩ else none

/-- Splits content into lines, each tagged with the character offset of
its first character; the terminating newline is not part of the line. -/
def splitLinesAux (lineStart : Nat) (acc : List Char) (pos : Nat) :
    List Char → List (Nat × List Char)
  | [] => [(lineStart, acc.reverse)]
  | c :: cs =>
    if c = '\n' then
      (lineStart, acc.reverse) :: splitLinesAux (pos + 1) [] (pos + 1) cs
    else splitLinesAux lineStart (c :: acc) (pos + 1) cs

/-- Lines of content with their starting offsets. -/
def linesWithPos (content : List Char) : List (Nat × List Char) :=
  splitLinesAux 0 [] 0 content

/-- Lines of content without offsets. -/
def splitLines (content : List Char) : List (List Char) :=
  (linesWithPos content).map Prod.snd

/-- Strips leading and trailing whitespace from a line. -/
def trimChars (l : List Char) : List Char := (String.mk l).trim.data

/-- Span covered by a window of offset-tagged lines, from the start of its
first line to the end of its last line. -/
def windowSpan (window : List (Nat × List Char)) : Span :=
  match window.head?, window.getLast? with
  | some (s, _), some (t, l) => ⟨s, t + l.length⟩
  | _, _ => ⟨0, 0⟩

/-- All windows of consecutive content lines whose line count equals the
line count of old. -/
def lineWindows (content old : List Char) : List (List (Nat × List Char)) :=
  (List.range (linesWithPos content).length).filterMap fun i =>
    let w := ((linesWithPos content).drop i).take (linesWithPos old).length
    if w.length = (linesWithPos old).length then some w else none

/-- Modelled from the spec: cascade strategy 2, exact match tolerating
leading/trailing whitespace differences per line — a window of content
lines matches when every line equals the corresponding old line after
trimming. -/
def lineTrimCands (content old new : List Char) : List Candidate :=
  (lineWindows content old).filterMap fun w =>
    if w.map (fun p => trimChars p.2) =
        (linesWithPos old).map (fun p => trimChars p.2) then
      some ⟨windowSpan w, new⟩
    else none

/-- Modelled from the spec: cascade strategy 3, block-anchor match — when
old_string spans at least three lines, a window of the same line count
matches when its first and last lines agree with old's first and last
lines after trimming, with arbitrary drift in the interior lines. -/
def blockAnchorCands (content old new : List Char) : List Candidate :=
  if (linesWithPos old).length < 3 then []
  else
    match (linesWithPos old).head?, (linesWithPos old).getLast? with
    | some f, some l =>
      (lineWindows content old).filterMap fun w =>
        match w.head?, w.getLast? with
        | some wf, some wl =>
          if trimChars wf.2 = trimChars f.2 ∧ trimChars wl.2 = trimChars l.2 then
            some ⟨windowSpan w, new⟩
          else none
        | _, _ => none
    | _, _ => []

/-- Characters of a list tagged with their original indices. -/
def indexedChars (l : List Char) : List (Char × Nat) :=
  l.enum.map fun p => (p.2, p.1)

/-- Collapses every run of whitespace to a single space carrying the
original index of the run's first character; the flag records whether the
previous kept character was such a collapsed space. -/
def collapseWS : Bool → List (Char × Nat) → List (Char × Nat)
  | _, [] => []
  | prevWS, (c, i) :: rest =>
    if c.isWhitespace then
      if prevWS then collapseWS true rest
      else (' ', i) :: collapseWS true rest
    else (c, i) :: collapseWS false rest

/-- Whitespace-collapsed characters of a list, tagged with original
indices. -/
def normWS (l : List Char) : List (Char × Nat) :=
  collapseWS false (indexedChars l)

/-- Occurrences of a normalized needle inside normalized index-tagged
content, mapped back to original-content spans. -/
def pairsSpanCands (nc : List (Char × Nat)) (no : List Char)
    (new : List Char) : List Candidate :=
  if no.isEmpty then []
  else (List.range nc.length).filterMap fun k =>
    if ((nc.drop k).take no.length).map Prod.fst = no ∧
        ((nc.drop k).take no.length).length = no.length then
      match ((nc.drop k).take no.length).head?,
          ((nc.drop k).take no.length).getLast? with
      | some (_, s), some (_, t) => some ⟨⟨s, t + 1⟩, new⟩
      | _, _ => none
    else none

/-- Modelled from the spec: cascade strategy 4, whitespace-normalized
match — collapse whitespace runs to single spaces on both sides before
comparing, then map the match back to original offsets. -/
def wsNormCands (content old new : List Char) : List Candidate :=
  pairsSpanCands (normWS content) ((normWS old).map Prod.fst) new

/-- Escape-sequence variants the escape-normalized strategy folds: escaped
newline, tab, quotes and backslash. -/
def unescapeChar : Char → Option Char
  | 'n' => some '\n'
  | 't' => some '\t'
  | '\x27' => some '\x27'
  | '"' => some '"'
  | '\\' => some '\\'
  | _ => none

/-- Rewrites recognized backslash escape sequences to the character they
denote, keeping original indices of the escape's first character. -/
def unescapePairs : List (Char × Nat) → List (Char × Nat)
  | [] => []
  | [(c, i)] => [(c, i)]
  | (c, i) :: (d, j) :: rest =>
    if c = '\\' then
      match unescapeChar d with
      | some e => (e, i) :: unescapePairs rest
      | none => (c, i) :: unescapePairs ((d, j) :: rest)
    else (c, i) :: unescapePairs ((d, j) :: rest)
termination_by l => l.length
decreasing_by all_goals simp_arith

/-- Modelled from the spec: cascade strategy 5, escape-normalized match —
normalize common escape-sequence variants on both sides before comparing,
then map the match back to original offsets. -/
def escNormCands (content old new : List Char) : List Candidate :=
  pairsSpanCands (unescapePairs (indexedChars content))
    ((unescapePairs (indexedChars old)).map Prod.fst) new

/-- Length of a line's leading run of spaces and tabs. -/
def leadingWS (l : List Char) : Nat :=
  (l.takeWhile fun c => c == ' ' || c == '\t').length

/-- Uniform leading indentation of a block: the smallest leading
whitespace length among its non-empty lines. -/
def commonIndent (ls : List (List Char)) : Nat :=
  match (ls.filter fun l => !l.isEmpty).map leadingWS with
  | [] => 0
  | n :: ns => ns.foldl Nat.min n

/-- Strips the uniform leading indentation from every line of a block. -/
def dedentLines (ls : List (List Char)) : List (List Char) :=
  ls.map fun l => l.drop (commonIndent ls)

/-- The indentation characters stripped from a block: the common-indent
prefix of its first non-empty line. -/
def indentOf (ls : List (List Char)) : List Char :=
  match (ls.filter fun l => !l.isEmpty).head? with
  | some l => l.take (commonIndent ls)
  | none => []

/-- Re-applies an indentation prefix to every line of a text. -/
def reindent (ind : List Char) (text : List Char) : List Char :=
  List.intercalate ['\n'] ((splitLines text).map fun l => ind ++ l)

/-- Modelled from the spec: cascade strategy 6, indentation-flexible
match — compare after stripping a uniform leading indentation from every
line, then re-apply the file's original indentation to the replacement
text. -/
def indentFlexCands (content old new : List Char) : List Candidate :=
  (lineWindows content old).filterMap fun w =>
    if dedentLines (w.map Prod.snd) = dedentLines (splitLines old) then
      some ⟨windowSpan w, reindent (indentOf (w.map Prod.snd)) new⟩
    else none

/-- Modelled from the spec: the fixed strategy priority of the edit
resolver's matching cascade (spec section 4.2): exact, line-trimmed,
block-anchor, whitespace-normalized, escape-normalized,
indentation-flexible. -/
def strategyList :
    List (List Char → List Char → List Char → List Candidate) :=
  [exactCands, lineTrimCands, blockAnchorCands, wsNormCands, escNormCands,
    indentFlexCands]

/-- First non-empty candidate list in cascade order, if any. -/
def firstNonemptyCands : List (List Candidate) → Option (List Candidate)
  | [] => none
  | l :: ls => if l.isEmpty then firstNonemptyCands ls else some l

/-- Candidates located by the winning strategy of the cascade for one
operation, or none when no strategy matches. -/
def winningCandidates (content : List Char) (op : EditOperation) :
    Option (List Candidate) :=
  firstNonemptyCands (strategyList.map fun f =>
    f content op.old_string.data op.new_string.data)

/-- Splices a replacement over a span of the content. -/
def replaceSpanL (content : List Char) (sp : Span) (rep : List Char) :
    List Char :=
  content.take sp.start ++ rep ++ content.drop sp.stop

/-- Replaces every candidate occurrence, splicing from the rightmost span
leftwards so earlier offsets stay valid. -/
def replaceAllCands (content : List Char) (cands : List Candidate) :
    List Char :=
  cands.foldr (fun c acc => replaceSpanL acc c.span c.replacement) content

/-- Modelled from the spec: resolution of a single edit operation
(spec section 4.2, src/utils/applyEdit.ts absent from the corpus): no
matching strategy is a no-match error; with replace_all every located
occurrence is replaced; otherwise the winning strategy's match must be
unique, and more than one candidate is an ambiguous-match error rather
than a guess. -/
def applyEdit (content : String) (op : EditOperation) :
    Except EditError String :=
  match winningCandidates content.data op with
  | none => Except.error EditError.noMatch
  | some cands =>
    if op.replace_all then
      Except.ok (String.mk (replaceAllCands content.data cands))
    else
      match cands with
      | [c] => Except.ok (String.mk (replaceSpanL content.data c.span c.replacement))
      | _ => Except.error EditError.ambiguousMatch

/-- Modelled from the spec: applyEdits applies the operations in order
against the progressively-updated content, stopping at the first
failure. -/
def applyEdits : String → List EditOperation → Except EditError String
  | content, [] => Except.ok content
  | content, op :: rest =>
    match applyEdit content op with
    | Except.ok u => applyEdits u rest
    | Except.error e => Except.error e

/-- JavaScript String.prototype.replace with a plain-string pattern:
replaces only the first occurrence (insertion at the front when the
pattern is empty), the fallback used by the preview. -/
def jsReplaceFirst (content old new : String) : String :=
  match (List.range (content.data.length + 1)).find?
      (fun i => substrAt content.data old.data i) with
  | none => content
  | some i =>
    String.mk (content.data.take i ++ new.data ++
      content.data.drop (i + old.data.length))

/-- The edit branch of getDiffParams in src/ui/ApprovalModal.tsx after the
2026-01-09 fix (code quoted in that design doc): the preview's new content
is the result of applyEdits on the current file content, falling back to a
naive single String.replace when applyEdits throws. -/
def getDiffParamsNewContent (oldContent : String) (op : EditOperation) :
    String :=
  match applyEdits oldContent [op] with
  | Except.ok u => u
  | Except.error _ => jsReplaceFirst oldContent op.old_string op.new_string

/-- C7: when replace_all is false and the winning strategy locates more
than one candidate occurrence, the resolver fails with the
ambiguous-match error and produces no updated content. -/
theorem ambiguous_match_fails (content : String) (op : EditOperation)
    (cands : List Candidate)
    (hall : op.replace_all = false)
    (hwin : winningCandidates content.data op = some cands)
    (hlen : 1 < cands.length) :
    applyEdit content op = Except.error EditError.ambiguousMatch ∧
    ∀ u : String, applyEdit content op ≠ Except.ok u := by
  have hmain : applyEdit content op = Except.error EditError.ambiguousMatch := by
    unfold applyEdit
    rw [hwin]
    simp only [hall, Bool.false_eq_true, if_false]
    match cands, hlen with
    | a :: b :: tl, _ => rfl
  exact ⟨hmain, fun u h => by rw [hmain] at h; exact Except.noConfusion h⟩

/-- Witness for C7: replacing the non-unique "a" in "aa" without
replace_all fails with the ambiguous-match error. -/
theorem ambiguous_match_fails_witness :
    applyEdit "aa" ⟨"a", "b", false⟩ = Except.error EditError.ambiguousMatch ∧
    ∀ u : String, applyEdit "aa" ⟨"a", "b", false⟩ ≠ Except.ok u :=
  ambiguous_match_fails "aa" ⟨"a", "b", false⟩
    [⟨⟨0, 1⟩, ['b']⟩, ⟨⟨1, 2⟩, ['b']⟩] rfl (by decide) (by decide)

/-- C1 counterexample: on content "aa" with the pending edit
old_string = "a", new_string = "b", replace_all = false, the execution
fails with an ambiguous match and changes nothing, while the preview's
fallback substitution shows the changed content "ba" — so preview and
execution are not computed by the identical cascade and the claimed
if-and-only-if fails. -/
theorem preview_execution_divergence_cex :
    getDiffParamsNewContent "aa" ⟨"a", "b", false⟩ ≠ "aa" ∧
    getDiffParamsNewContent "aa" ⟨"a", "b", false⟩ = "ba" ∧
    applyEdits "aa" [⟨"a", "b", false⟩] = Except.error EditError.ambiguousMatch := by
  refine ⟨by decide, by decide, by rfl⟩

/-- C1 amended: whenever the execution of a pending edit succeeds, the
preview equals the executed result exactly, because both run the same
applyEdits cascade; only when the execution would fail does the preview
fall back to a naive first-occurrence substitution, which can display a
change although the execution would fail and leave the file unchanged. -/
theorem preview_matches_execution_on_success (content : String)
    (op : EditOperation) (u : String)
    (h : applyEdits content [op] = Except.ok u) :
    getDiffParamsNewContent content op = u := by
  unfold getDiffParamsNewContent
  rw [h]

/-- Witness for C1: a unique exact match previews exactly the executed
content. -/
theorem preview_matches_execution_witness :
    getDiffParamsNewContent "xy" ⟨"x", "z", false⟩ = "zy" :=
  preview_matches_execution_on_success "xy" ⟨"x", "z", false⟩ "zy" (by rfl)

/-- Modelled from the spec: a path (as a list of components) lies within a
directory when the directory's components are a prefix of the path's
(spec section 6, isPathAllowed collaborator; the add-dir design doc's
isPathWithin). -/
def isPathWithin (child parent : List String) : Bool :=
  parent.isPrefixOf child

/-- Modelled from the spec: the permitted filesystem scope is the working
directory plus the externally granted additional directories; a path is
allowed when it lies within any of them. -/
def isPathAllowed (cwd : List String) (additional : List (List String))
    (p : List String) : Bool :=
  isPathWithin p cwd || additional.any fun d => isPathWithin p d

/-- Filesystem tool requests (spec section 6 tool schemas): read a path,
write content to a path, or apply an edit operation to a path. -/
inductive FsRequest
  | read (path : List String)
  | write (path : List String) (content : String)
  | edit (path : List String) (op : EditOperation)

/-- Target path of a filesystem tool request. -/
def FsRequest.pathOf : FsRequest → List String
  | FsRequest.read p => p
  | FsRequest.write p _ => p
  | FsRequest.edit p _ => p

/-- A filesystem snapshot: an association of paths to file contents. -/
abbrev FileSystem := List (List String × String)

/-- Content of a file, if present. -/
def lookupFile (fs : FileSystem) (p : List String) : Option String :=
  (fs.find? fun e => e.1 == p).map Prod.snd

/-- Stores content at a path, replacing any previous entry. -/
def writeFile (fs : FileSystem) (p : List String) (content : String) :
    FileSystem :=
  (p, content) :: fs.filter fun e => !(e.1 == p)

/-- The distinct ValidationError result returned for a target path outside
the permitted scope. -/
def scopeValidationError : ToolResult :=
  ⟨ToolStatus.error, true, "Path is outside the permitted workspace scope",
    some ErrorKind.validation⟩

/-- Modelled from the spec: the tool execution gate's handling of a
filesystem tool call (spec section 4.3; the gate's source is absent from
the corpus).  The scope check runs first: a path outside the working
directory and the granted additional directories returns the distinct
ValidationError without attempting execution.  Inside scope, read returns
the content, write stores the content, and edit runs the resolver and
persists its result, surfacing resolver failures as tool errors. -/
def runFsTool (cwd : List String) (additional : List (List String))
    (fs : FileSystem) (req : FsRequest) : FileSystem × ToolResult :=
  if isPathAllowed cwd additional req.pathOf then
    match req with
    | FsRequest.read p =>
      match lookupFile fs p with
      | some content => (fs, ⟨ToolStatus.success, false, content, none⟩)
      | none =>
        (fs, ⟨ToolStatus.error, true, "File not found",
          some ErrorKind.validation⟩)
    | FsRequest.write p content =>
      (writeFile fs p content, ⟨ToolStatus.success, false, "", none⟩)
    | FsRequest.edit p op =>
      match lookupFile fs p with
      | none =>
        (fs, ⟨ToolStatus.error, true, "File not found",
          some ErrorKind.validation⟩)
      | some content =>
        match applyEdits content [op] with
        | Except.ok u =>
          (writeFile fs p u, ⟨ToolStatus.success, false, "", none⟩)
        | Except.error EditError.noMatch =>
          (fs, ⟨ToolStatus.error, true, "No match found",
            some ErrorKind.noMatch⟩)
        | Except.error EditError.ambiguousMatch =>
          (fs, ⟨ToolStatus.error, true, "Ambiguous match",
            some ErrorKind.ambiguous⟩)
  else (fs, scopeValidationError)

/-- C9: a read, write or edit whose target path lies outside the permitted
scope returns the distinct ValidationError result and leaves the
filesystem unchanged — execution is never attempted. -/
theorem out_of_scope_validation_error (cwd : List String)
    (additional : List (List String)) (fs : FileSystem) (req : FsRequest)
    (h : isPathAllowed cwd additional req.pathOf = false) :
    (runFsTool cwd additional fs req).1 = fs ∧
    (runFsTool cwd additional fs req).2 = scopeValidationError ∧
    (runFsTool cwd additional fs req).2.errKind = some ErrorKind.validation ∧
    (runFsTool cwd additional fs req).2.status = ToolStatus.error := by
  have hr : runFsTool cwd additional fs req = (fs, scopeValidationError) := by
    unfold runFsTool
    rw [h]
    rfl
  rw [hr]
  exact ⟨rfl, rfl, rfl, rfl⟩

/-- Witness for C9: a write outside the working directory and the granted
directory is rejected with the ValidationError and the filesystem is
untouched. -/
theorem out_of_scope_validation_error_witness :
    (runFsTool ["home", "user", "proj"] [["srv", "data"]]
      [(["etc", "hosts"], "x")]
      (FsRequest.write ["etc", "hosts"] "pwned")).1 =
      [(["etc", "hosts"], "x")] ∧
    (runFsTool ["home", "user", "proj"] [["srv", "data"]]
      [(["etc", "hosts"], "x")]
      (FsRequest.write ["etc", "hosts"] "pwned")).2 = scopeValidationError := by
  have h := out_of_scope_validation_error ["home", "user", "proj"]
    [["srv", "data"]] [(["etc", "hosts"], "x")]
    (FsRequest.write ["etc", "hosts"] "pwned") (by decide)
  exact ⟨h.1, h.2.1⟩

end Neovate
